import Mathlib

/-
Verification of the resilience core of the melodai-service repository:
RetryHandler, CircuitBreaker, ErrorLogger and ErrorHandler.

Shallow embedding conventions:
* A thrown JavaScript value is modelled by `Thrown := Option JsError`;
  `none` stands for a thrown value that is not an object with a `message`
  field (e.g. `undefined`), `some e` for an object error.  An object error
  carries its `message` string and an optional numeric `status` field.
* An asynchronous operation is modelled as a function from the 1-indexed
  attempt number to its outcome, `Nat → Except Thrown α`.
* `Date.now()` values are passed in explicitly as `Int` milliseconds; one
  call is modelled as happening at a single instant.
* The caller-supplied hooks (`onOpen`, `onClose`, `onHalfOpen`) are pure
  side effects in the source; the model records which hooks fire, in
  order, in the output of `CircuitBreaker.execute`.
-/

/-- An object error thrown by JavaScript code: its `message` and an
optional HTTP-like `status` field ( `status = none` models an object
without a `status` property). -/
structure JsError where
  message : String
  status : Option Int
deriving DecidableEq, Repr

/-- A thrown JavaScript value: `none` is a non-object throw (`undefined`,
a string, ...), `some e` an object error. -/
abbrev Thrown := Option JsError

/-- `Required<RetryOptions>` from the source: all retry options filled in. -/
structure RetryOpts where
  maxAttempts : Nat
  initialDelay : ℚ
  maxDelay : ℚ
  backoffMultiplier : ℚ
  retryCondition : Thrown → Bool

/-- The default `retryCondition` of `RetryHandler.defaultOptions`:
if the error is an object with a `status` field, retry exactly when
`status >= 500 || status === 429`; otherwise return `true`. -/
def defaultRetryCondition : Thrown → Bool
  | some e =>
    match e.status with
    | some s => decide (500 ≤ s) || decide (s = 429)
    | none => true
  | none => true

/-- `RetryHandler.defaultOptions` from the source. -/
def RetryHandler.defaultOptions : RetryOpts :=
  { maxAttempts := 3
    initialDelay := 1000
    maxDelay := 10000
    backoffMultiplier := 2
    retryCondition := defaultRetryCondition }

/-- Observable outcome of one `RetryHandler.retry` call: the returned or
thrown value, how many times `fn` was invoked, and the sequence of delays
slept (in order) between attempts. -/
structure RetryOutcome (α : Type) where
  result : Except Thrown α
  calls : Nat
  delays : List ℚ
deriving Repr

/-- The `for` loop of `RetryHandler.retry`, with `remaining` the number of
loop iterations still allowed (`remaining = maxAttempts - attempt + 1`).
When the loop exits without returning, the source throws `lastError`
(which is `undefined`, i.e. `none`, if no attempt ever ran). -/
def retryAux (fn : Nat → Except Thrown α) (opts : RetryOpts) :
    Nat → ℚ → Option Thrown → Nat → RetryOutcome α
  | _, _, lastError, 0 => ⟨Except.error (lastError.getD none), 0, []⟩
  | attempt, delay, _, r + 1 =>
    match fn attempt with
    | Except.ok a => ⟨Except.ok a, 1, []⟩
    | Except.error t =>
      if r = 0 || !(opts.retryCondition t) then
        ⟨Except.error t, 1, []⟩
      else
        let rest := retryAux fn opts (attempt + 1)
          (min (delay * opts.backoffMultiplier) opts.maxDelay) (some t) r
        ⟨rest.result, rest.calls + 1, delay :: rest.delays⟩

/-- `RetryHandler.retry(fn, opts)`: attempts are 1-indexed, the delay
variable starts at `opts.initialDelay` and after each sleep is updated to
`min(delay * backoffMultiplier, maxDelay)`. -/
def RetryHandler.retry (fn : Nat → Except Thrown α) (opts : RetryOpts) : RetryOutcome α :=
  retryAux fn opts 1 opts.initialDelay none opts.maxAttempts

/-- The `CircuitState` enum of the source. -/
inductive CircuitState where
  | CLOSED
  | OPEN
  | HALF_OPEN
deriving DecidableEq, Repr

/-- `Required<CircuitBreakerOptions>` (the three numeric options; the three
hooks are modelled by the `Hook` trace). -/
structure CBOptions where
  failureThreshold : Nat
  resetTimeout : Int
  monitoringPeriod : Int
deriving DecidableEq, Repr

/-- The defaults filled in by the `CircuitBreaker` constructor:
`failureThreshold = 5`, `resetTimeout = 60000`, `monitoringPeriod = 10000`. -/
def defaultCBOptions : CBOptions :=
  { failureThreshold := 5, resetTimeout := 60000, monitoringPeriod := 10000 }

/-- The mutable fields of a `CircuitBreaker` instance. -/
structure Breaker where
  state : CircuitState
  failures : Nat
  lastFailureTime : Int
  successCount : Nat
deriving DecidableEq, Repr

/-- A freshly constructed `CircuitBreaker` (also the state forced by
`reset()`). -/
def CircuitBreaker.initial : Breaker :=
  { state := CircuitState.CLOSED, failures := 0, lastFailureTime := 0, successCount := 0 }

/-- A record of one caller-supplied hook firing. -/
inductive Hook where
  | opened (failures : Nat)
  | closed
  | halfOpened
deriving DecidableEq, Repr

/-- What one `CircuitBreaker.execute` call did with the wrapped operation:
rejected it without invoking it, or invoked it and saw it succeed or fail. -/
inductive ExecResult where
  | rejected
  | ok
  | failed
deriving DecidableEq, Repr

/-- Output of one `CircuitBreaker.execute` call: the updated breaker, what
happened to the operation, and the hooks fired (in order). -/
structure ExecOut where
  breaker : Breaker
  result : ExecResult
  hooks : List Hook
deriving DecidableEq, Repr

/-- `CircuitBreaker.onSuccess`. -/
def CircuitBreaker.onSuccess (opts : CBOptions) (b : Breaker) (now : Int) :
    Breaker × List Hook :=
  if b.state = CircuitState.HALF_OPEN then
    if 3 ≤ b.successCount + 1 then
      ({ b with state := CircuitState.CLOSED, failures := 0, successCount := 0 },
        [Hook.closed])
    else
      ({ b with successCount := b.successCount + 1 }, [])
  else if b.state = CircuitState.CLOSED then
    if opts.monitoringPeriod < now - b.lastFailureTime then
      ({ b with failures := 0 }, [])
    else
      (b, [])
  else
    (b, [])

/-- `CircuitBreaker.onFailure`. -/
def CircuitBreaker.onFailure (opts : CBOptions) (b : Breaker) (now : Int) :
    Breaker × List Hook :=
  let b1 : Breaker :=
    { b with failures := b.failures + 1, lastFailureTime := now, successCount := 0 }
  if opts.failureThreshold ≤ b1.failures ∧ ¬b1.state = CircuitState.OPEN then
    ({ b1 with state := CircuitState.OPEN }, [Hook.opened b1.failures])
  else
    (b1, [])

/-- The `try { await fn() } catch` part of `CircuitBreaker.execute`:
invoke the operation, then run `onSuccess` or `onFailure`. -/
def CircuitBreaker.runCall (opts : CBOptions) (b : Breaker) (now : Int) (fnOk : Bool)
    (hooks0 : List Hook) : ExecOut :=
  if fnOk then
    let p := CircuitBreaker.onSuccess opts b now
    ⟨p.1, ExecResult.ok, hooks0 ++ p.2⟩
  else
    let p := CircuitBreaker.onFailure opts b now
    ⟨p.1, ExecResult.failed, hooks0 ++ p.2⟩

/-- `CircuitBreaker.execute` at instant `now`, where the wrapped operation
would succeed exactly when `fnOk`.  While `OPEN` and before `resetTimeout`
has elapsed it throws `Error("Circuit breaker is OPEN")` without invoking
the operation (`ExecResult.rejected`); once `resetTimeout` has elapsed it
transitions to `HALF_OPEN` (firing `onHalfOpen`) and proceeds. -/
def CircuitBreaker.execute (opts : CBOptions) (b : Breaker) (now : Int) (fnOk : Bool) :
    ExecOut :=
  if b.state = CircuitState.OPEN then
    if opts.resetTimeout ≤ now - b.lastFailureTime then
      CircuitBreaker.runCall opts { b with state := CircuitState.HALF_OPEN } now fnOk
        [Hook.halfOpened]
    else
      ⟨b, ExecResult.rejected, []⟩
  else
    CircuitBreaker.runCall opts b now fnOk []

/-- Folding a sequence of failing calls (operation always fails) through a
breaker, each element of `ts` being that call's `Date.now()`. -/
def applyFails (opts : CBOptions) (b : Breaker) (ts : List Int) : Breaker :=
  ts.foldl (fun bb t => (CircuitBreaker.execute opts bb t false).breaker) b

/-- The states a `CircuitBreaker` instance can actually be in at a given
instant: freshly constructed at time 0, then any interleaving of
`execute` calls at nondecreasing instants, plain time passage, and
`reset()` calls. -/
inductive Reachable (opts : CBOptions) : Breaker → Int → Prop where
  | init : Reachable opts CircuitBreaker.initial 0
  | step {b : Breaker} {t t' : Int} :
      Reachable opts b t → t ≤ t' → ∀ fnOk : Bool,
      Reachable opts (CircuitBreaker.execute opts b t' fnOk).breaker t'
  | tick {b : Breaker} {t t' : Int} :
      Reachable opts b t → t ≤ t' → Reachable opts b t'
  | reset {b : Breaker} {t : Int} :
      Reachable opts b t → Reachable opts CircuitBreaker.initial t

/-- The push-and-evict part of `ErrorLogger.log`: push the notification,
then `shift()` once if the buffer length exceeds 1000. -/
def ErrorLogger.pushBounded (buf : List α) (n : α) : List α :=
  let buf1 := buf ++ [n]
  if 1000 < buf1.length then buf1.tail else buf1

/-- The `this.listeners.forEach((listener) => listener(fullNotification))`
loop.  A listener returning `some e` models a listener that throws `e`:
the loop stops there and the exception propagates.  Returns how many
listeners were invoked and the propagated exception, if any. -/
def notifyList {α ε : Type} : List (α → Option ε) → α → Nat × Option ε
  | [], _ => (0, none)
  | l :: ls, n =>
    match l n with
    | some e => (1, some e)
    | none =>
      let r := notifyList ls n
      (r.1 + 1, r.2)

/-- The mutable fields of an `ErrorLogger` instance: the bounded
notification buffer and the subscribed listeners (in subscription order). -/
structure LoggerState (α ε : Type) where
  notifications : List α
  listeners : List (α → Option ε)

/-- `ErrorLogger.log`: append to the buffer (evicting the oldest entry if
the buffer would exceed 1000), then notify the listeners in order.
Returns the updated state, the number of listeners invoked, and the
exception propagated by a throwing listener, if any.  The buffer update
happens before notification, so it persists even when a listener throws. -/
def ErrorLogger.log (st : LoggerState α ε) (n : α) : LoggerState α ε × Nat × Option ε :=
  let buf := ErrorLogger.pushBounded st.notifications n
  let r := notifyList st.listeners n
  (⟨buf, st.listeners⟩, r.1, r.2)

/-- `ErrorLogger.subscribe`: listeners are pushed at the end of the list. -/
def ErrorLogger.subscribe (st : LoggerState α ε) (l : α → Option ε) : LoggerState α ε :=
  { st with listeners := st.listeners ++ [l] }

/-- Logging a sequence of events, keeping only the logger state. -/
def ErrorLogger.logAll (st : LoggerState α ε) (evs : List α) : LoggerState α ε :=
  evs.foldl (fun s e => (ErrorLogger.log s e).1) st

/-- A structured log line emitted through the `ErrorLogger` (the model
keeps the level and the message). -/
inductive LogLevel where
  | info
  | warning
  | error
  | critical
deriving DecidableEq, Repr

/-- One logged notification, as produced by `ErrorHandler.logError`. -/
structure LogEntry where
  level : LogLevel
  message : String
deriving DecidableEq, Repr

/-- The `catch` block of `ErrorHandler.withCircuitBreaker`: if the thrown
value is an object whose `message` equals `"Circuit breaker is OPEN"`, a
registered fallback (if any) is used and a warning is logged; otherwise
the error propagates. -/
def ErrorHandler.cbCatch (name : String) (b : Breaker) (t : Thrown) (fallback : Option α) :
    Breaker × Except Thrown α × List LogEntry :=
  match t with
  | some e =>
    if e.message = "Circuit breaker is OPEN" then
      match fallback with
      | some v =>
        (b, Except.ok v,
          [⟨LogLevel.warning, "Circuit breaker " ++ name ++ " is open, using fallback"⟩])
      | none => (b, Except.error (some e), [])
    else
      (b, Except.error (some e), [])
  | none => (b, Except.error none, [])

/-- `ErrorHandler.withCircuitBreaker` for the breaker registered under
`name`: run the operation (whose outcome is `fnRes`) through
`CircuitBreaker.execute` at instant `now`; a rejection throws
`Error("Circuit breaker is OPEN")`; any caught error goes through
`ErrorHandler.cbCatch`. -/
def ErrorHandler.withCircuitBreaker (opts : CBOptions) (name : String) (b : Breaker)
    (now : Int) (fnRes : Except Thrown α) (fallback : Option α) :
    Breaker × Except Thrown α × List LogEntry :=
  let fnOk : Bool := match fnRes with | Except.ok _ => true | Except.error _ => false
  let out := CircuitBreaker.execute opts b now fnOk
  match out.result with
  | ExecResult.rejected =>
      ErrorHandler.cbCatch name out.breaker (some ⟨"Circuit breaker is OPEN", none⟩) fallback
  | ExecResult.ok => (out.breaker, fnRes, [])
  | ExecResult.failed =>
    match fnRes with
    | Except.error t => ErrorHandler.cbCatch name out.breaker t fallback
    | Except.ok a => (out.breaker, Except.ok a, [])

/-- `ErrorHandler.withErrorHandling`: optionally wrap `fn` with retry,
optionally run the result through the named circuit breaker (`cb`
supplies that breaker's options, current state and the call instant), and
on a terminal failure log an error event and fall back if a fallback was
supplied.  Returns the outcome, the log entries emitted, and the updated
breaker when a circuit breaker was used. -/
def ErrorHandler.withErrorHandling (name : String) (fn : Nat → Except Thrown α)
    (retryOpt : Option RetryOpts) (fallback : Option α)
    (cb : Option (CBOptions × Breaker × Int)) :
    Except Thrown α × List LogEntry × Option Breaker :=
  let opRes : Except Thrown α :=
    match retryOpt with
    | some ro => (RetryHandler.retry fn ro).result
    | none => fn 1
  match cb with
  | some (copts, b, now) =>
    let w := ErrorHandler.withCircuitBreaker copts name b now opRes fallback
    match w.2.1 with
    | Except.ok a => (Except.ok a, w.2.2, some w.1)
    | Except.error t =>
      let logs := w.2.2 ++ [⟨LogLevel.error, "Operation " ++ name ++ " failed"⟩]
      match fallback with
      | some v =>
        (Except.ok v, logs ++ [⟨LogLevel.info, "Using fallback for " ++ name⟩], some w.1)
      | none => (Except.error t, logs, some w.1)
  | none =>
    match opRes with
    | Except.ok a => (Except.ok a, [], none)
    | Except.error t =>
      let logs := [⟨LogLevel.error, "Operation " ++ name ++ " failed"⟩]
      match fallback with
      | some v =>
        (Except.ok v, logs ++ [⟨LogLevel.info, "Using fallback for " ++ name⟩], none)
      | none => (Except.error t, logs, none)

/-- The invariant claimed by the specification for a circuit breaker,
stated in the spec's own words: the phase is `Open` exactly when the
failure counter has reached the threshold and less than `resetTimeout`
has elapsed since the last failure. -/
def specOpenInvariant (opts : CBOptions) (b : Breaker) (now : Int) : Prop :=
  b.state = CircuitState.OPEN ↔
    (opts.failureThreshold ≤ b.failures ∧ now - b.lastFailureTime < opts.resetTimeout)

lemma retryAux_fail_exact (fn : Nat → Except Thrown α) (opts : RetryOpts)
    (hfail : ∀ i, ∃ t, fn i = Except.error t)
    (hcond : ∀ t, opts.retryCondition t = true) :
    ∀ (r a : Nat) (d : ℚ) (le : Option Thrown), 1 ≤ r →
      (retryAux fn opts a d le r).calls = r ∧
      ∃ t, fn (a + r - 1) = Except.error t ∧
        (retryAux fn opts a d le r).result = Except.error t := by
  intro r
  induction r with
  | zero => intro a d le h; exact absurd h (by omega)
  | succ r ih =>
    intro a d le _
    obtain ⟨t, ht⟩ := hfail a
    cases r with
    | zero =>
      refine ⟨by simp [retryAux, ht], t, by simpa using ht, by simp [retryAux, ht]⟩
    | succ r' =>
      obtain ⟨ihc, t', ht', ihr⟩ :=
        ih (a + 1) (min (d * opts.backoffMultiplier) opts.maxDelay) (some t) (by omega)
      have harith : a + 1 + (r' + 1) - 1 = a + (r' + 1 + 1) - 1 := by omega
      rw [harith] at ht'
      refine ⟨?_, t', ht', ?_⟩
      · simp [retryAux, ht, hcond t] at ihc ⊢
        exact ihc
      · simp [retryAux, ht, hcond t] at ihr ⊢
        exact ihr

lemma retryAux_fail_any (fn : Nat → Except Thrown α) (opts : RetryOpts)
    (hfail : ∀ i, ∃ t, fn i = Except.error t) :
    ∀ (r a : Nat) (d : ℚ) (le : Option Thrown), 1 ≤ r →
      ∃ k t, a ≤ k ∧ fn k = Except.error t ∧
        (retryAux fn opts a d le r).result = Except.error t := by
  intro r
  induction r with
  | zero => intro a d le h; exact absurd h (by omega)
  | succ r ih =>
    intro a d le _
    obtain ⟨t, ht⟩ := hfail a
    cases r with
    | zero => exact ⟨a, t, le_refl a, ht, by simp [retryAux, ht]⟩
    | succ r' =>
      by_cases hc : opts.retryCondition t = true
      · obtain ⟨k, t', hk, ht', ihr⟩ :=
          ih (a + 1) (min (d * opts.backoffMultiplier) opts.maxDelay) (some t) (by omega)
        refine ⟨k, t', by omega, ht', ?_⟩
        simp [retryAux, ht, hc] at ihr ⊢
        exact ihr
      · have hc' : opts.retryCondition t = false := by
          cases h : opts.retryCondition t
          · rfl
          · exact absurd h hc
        exact ⟨a, t, le_refl a, ht, by simp [retryAux, ht, hc']⟩

lemma retryAux_first_success (fn : Nat → Except Thrown α) (opts : RetryOpts)
    (hcond : ∀ t, opts.retryCondition t = true) (k : Nat) (v : α)
    (hk : fn k = Except.ok v)
    (hbefore : ∀ i, 1 ≤ i → i < k → ∃ t, fn i = Except.error t) :
    ∀ (r a : Nat) (d : ℚ) (le : Option Thrown), 1 ≤ a → a ≤ k → k ≤ a + r - 1 →
      (retryAux fn opts a d le r).calls = k - a + 1 ∧
      (retryAux fn opts a d le r).result = Except.ok v := by
  intro r
  induction r with
  | zero => intro a d le ha hak hka; exact absurd hka (by omega)
  | succ r ih =>
    intro a d le ha hak hka
    rcases eq_or_lt_of_le hak with heq | hlt
    · subst heq
      constructor <;> simp [retryAux, hk]
    · obtain ⟨t, ht⟩ := hbefore a ha hlt
      cases r with
      | zero => exact absurd hka (by omega)
      | succ r' =>
        obtain ⟨ihc, ihr⟩ :=
          ih (a + 1) (min (d * opts.backoffMultiplier) opts.maxDelay) (some t)
            (by omega) (by omega) (by omega)
        have harith : k - a + 1 = (k - (a + 1) + 1) + 1 := by omega
        constructor
        · rw [harith]
          simp [retryAux, ht, hcond t] at ihc ⊢
          exact ihc
        · simp [retryAux, ht, hcond t] at ihr ⊢
          exact ihr

/-- C3: with `maxAttempts = N ≥ 1` and a retry predicate accepting every
error, `retry` invokes an always-failing operation exactly `N` times and
rethrows the error of the last attempt; an operation whose first success
is at attempt `k ≤ N` is invoked exactly `k` times and its success value
is returned, with no attempt after the success. -/
theorem retry_attempt_counts (fn : Nat → Except Thrown α) (opts : RetryOpts)
    (hN : 1 ≤ opts.maxAttempts) (hcond : ∀ t, opts.retryCondition t = true) :
    ((∀ i, ∃ t, fn i = Except.error t) →
      (RetryHandler.retry fn opts).calls = opts.maxAttempts ∧
      ∃ t, fn opts.maxAttempts = Except.error t ∧
        (RetryHandler.retry fn opts).result = Except.error t) ∧
    (∀ (k : Nat) (v : α), 1 ≤ k → k ≤ opts.maxAttempts → fn k = Except.ok v →
      (∀ i, 1 ≤ i → i < k → ∃ t, fn i = Except.error t) →
      (RetryHandler.retry fn opts).calls = k ∧
      (RetryHandler.retry fn opts).result = Except.ok v) := by
  constructor
  · intro hfail
    obtain ⟨hc, t, ht, hr⟩ :=
      retryAux_fail_exact fn opts hfail hcond opts.maxAttempts 1 opts.initialDelay none hN
    have h1 : 1 + opts.maxAttempts - 1 = opts.maxAttempts := by omega
    rw [h1] at ht
    exact ⟨hc, t, ht, hr⟩
  · intro k v hk1 hkN hk hbefore
    obtain ⟨hc, hr⟩ :=
      retryAux_first_success fn opts hcond k v hk hbefore opts.maxAttempts 1
        opts.initialDelay none (le_refl 1) hk1 (by omega)
    have h1 : k - 1 + 1 = k := by omega
    rw [h1] at hc
    exact ⟨hc, hr⟩

/-- A concrete run of `retry_attempt_counts`: a policy with 4 attempts and
an all-accepting predicate, an operation failing on every attempt, and an
operation first succeeding at attempt 2. -/
theorem retry_attempt_counts_witness :
    ((RetryHandler.retry (fun _ => Except.error (some ⟨"boom", some 500⟩))
        ⟨4, 100, 1000, 2, fun _ => true⟩ (α := Nat)).calls = 4 ∧
      ∃ t, (fun _ => Except.error (some ⟨"boom", some 500⟩) : Nat → Except Thrown Nat) 4
            = Except.error t ∧
        (RetryHandler.retry (fun _ => Except.error (some ⟨"boom", some 500⟩))
          ⟨4, 100, 1000, 2, fun _ => true⟩ (α := Nat)).result = Except.error t) ∧
    ((RetryHandler.retry (fun i => if i = 1 then Except.error none else Except.ok 7)
        ⟨4, 100, 1000, 2, fun _ => true⟩).calls = 2 ∧
      (RetryHandler.retry (fun i => if i = 1 then Except.error none else Except.ok 7)
        ⟨4, 100, 1000, 2, fun _ => true⟩).result = Except.ok 7) := by
  constructor
  · exact (retry_attempt_counts (fun _ => Except.error (some ⟨"boom", some 500⟩))
      ⟨4, 100, 1000, 2, fun _ => true⟩ (by decide) (fun _ => rfl)).1
      (fun _ => ⟨some ⟨"boom", some 500⟩, rfl⟩)
  · exact (retry_attempt_counts (fun i => if i = 1 then Except.error none else Except.ok 7)
      ⟨4, 100, 1000, 2, fun _ => true⟩ (by decide) (fun _ => rfl)).2 2 7
      (by decide) (by decide) rfl
      (fun i h1 h2 => ⟨none, by interval_cases i; rfl⟩)

lemma min_mul_cap (a b c : ℚ) (hb : 1 ≤ b) (hc : 0 ≤ c) :
    min (min a c * b) c = min (a * b) c := by
  rcases le_total a c with h | h
  · rw [min_eq_left h]
  · have hb0 : (0 : ℚ) ≤ b := by linarith
    have hcb : c ≤ c * b := le_mul_of_one_le_right hc hb
    have hab : c ≤ a * b := le_trans hcb (mul_le_mul_of_nonneg_right h hb0)
    rw [min_eq_right h, min_eq_right hcb, min_eq_right hab]

lemma retryAux_delays (fn : Nat → Except Thrown α) (opts : RetryOpts)
    (hm : 1 ≤ opts.backoffMultiplier) :
    ∀ (r a : Nat) (d : ℚ) (le : Option Thrown), 0 ≤ d → d ≤ opts.maxDelay →
      ∀ j, j < (retryAux fn opts a d le r).delays.length →
        (retryAux fn opts a d le r).delays.get? j =
          some (min (d * opts.backoffMultiplier ^ j) opts.maxDelay) := by
  intro r
  induction r with
  | zero => intro a d le _ _ j hj; simp [retryAux] at hj
  | succ r ih =>
    intro a d le hd0 hdM j hj
    cases hfa : fn a with
    | ok v => simp [retryAux, hfa] at hj
    | error t =>
      by_cases hguard : (decide (r = 0) || !(opts.retryCondition t)) = true
      · simp [retryAux, hfa, hguard] at hj
      · have hMax : (0 : ℚ) ≤ opts.maxDelay := le_trans hd0 hdM
        have hd'0 : (0 : ℚ) ≤ min (d * opts.backoffMultiplier) opts.maxDelay :=
          le_min (mul_nonneg hd0 (by linarith)) hMax
        have hd'M : min (d * opts.backoffMultiplier) opts.maxDelay ≤ opts.maxDelay :=
          min_le_right _ _
        have hstep := ih (a + 1) (min (d * opts.backoffMultiplier) opts.maxDelay)
          (some t) hd'0 hd'M
        simp [retryAux, hfa, hguard] at hj ⊢
        cases j with
        | zero =>
          simp [min_eq_left hdM]
        | succ j' =>
          have hj' := hstep j' (by
            revert hj
            simp [retryAux, hfa, hguard])
          simp at hj' ⊢
          rw [hj']
          have hpow : (1 : ℚ) ≤ opts.backoffMultiplier ^ j' := by
            simpa using pow_le_pow_right₀ hm (Nat.zero_le j')
          have := min_mul_cap (d * opts.backoffMultiplier) (opts.backoffMultiplier ^ j')
            opts.maxDelay hpow hMax
          rw [this]
          congr 1
          ring_nf

/-- C4: for every retry policy with `initialDelay ≥ 0`,
`maxDelay ≥ initialDelay` and `backoffMultiplier ≥ 1`, the `j`-th delay
slept (0-indexed, i.e. the delay before attempt `j + 2`) equals
`min(initialDelay * backoffMultiplier ^ j, maxDelay)`, and the delays
never decrease within one `retry` call. -/
theorem retry_backoff_delays (fn : Nat → Except Thrown α) (opts : RetryOpts)
    (h0 : 0 ≤ opts.initialDelay) (h1 : opts.initialDelay ≤ opts.maxDelay)
    (hm : 1 ≤ opts.backoffMultiplier) :
    (∀ j, j < (RetryHandler.retry fn opts).delays.length →
      (RetryHandler.retry fn opts).delays.get? j =
        some (min (opts.initialDelay * opts.backoffMultiplier ^ j) opts.maxDelay)) ∧
    (∀ j x y, (RetryHandler.retry fn opts).delays.get? j = some x →
      (RetryHandler.retry fn opts).delays.get? (j + 1) = some y → x ≤ y) := by
  have hform : ∀ j, j < (RetryHandler.retry fn opts).delays.length →
      (RetryHandler.retry fn opts).delays.get? j =
        some (min (opts.initialDelay * opts.backoffMultiplier ^ j) opts.maxDelay) :=
    retryAux_delays fn opts hm opts.maxAttempts 1 opts.initialDelay none h0 h1
  refine ⟨hform, ?_⟩
  intro j x y hx hy
  have hjlen : j + 1 < (RetryHandler.retry fn opts).delays.length :=
    List.get?_eq_some.mp hy |>.1
  have hx' := hform j (by omega)
  have hy' := hform (j + 1) (by omega)
  rw [hx] at hx'
  rw [hy] at hy'
  obtain rfl : x = min (opts.initialDelay * opts.backoffMultiplier ^ j) opts.maxDelay :=
    Option.some_injective _ hx'
  obtain rfl : y = min (opts.initialDelay * opts.backoffMultiplier ^ (j + 1)) opts.maxDelay :=
    Option.some_injective _ hy'
  refine min_le_min ?_ (le_refl _)
  have hpow : opts.backoffMultiplier ^ j ≤ opts.backoffMultiplier ^ (j + 1) :=
    pow_le_pow_right₀ hm (Nat.le_succ j)
  exact mul_le_mul_of_nonneg_left hpow h0

/-- A concrete run of `retry_backoff_delays` on the spec's worked example:
`initialDelay = 100`, `multiplier = 2`, `maxDelay = 1000`, six attempts of
an always-failing operation: the delay before attempt 6 (index 4) is the
cap 1000, and the delay before attempt 3 (index 1) is 200. -/
theorem retry_backoff_delays_witness :
    (RetryHandler.retry (fun _ => Except.error none)
        ⟨6, 100, 1000, 2, fun _ => true⟩ (α := Nat)).delays.get? 4 =
      some (min ((100 : ℚ) * 2 ^ 4) 1000) ∧
    (RetryHandler.retry (fun _ => Except.error none)
        ⟨6, 100, 1000, 2, fun _ => true⟩ (α := Nat)).delays.get? 1 =
      some (min ((100 : ℚ) * 2 ^ 1) 1000) := by
  have h := retry_backoff_delays (fun _ => Except.error none)
    ⟨6, 100, 1000, 2, fun _ => true⟩ (α := Nat) (by norm_num) (by norm_num) (by norm_num)
  exact ⟨h.1 4 (by decide), h.1 1 (by decide)⟩

/-- C5 counterexample: an object error that carries no status code at all
is retryable under the default predicate (the source returns `true` for
any error without a `status` field), contradicting the claim that every
error without a status code is non-retryable. -/
theorem default_retry_condition_cex :
    (some ⟨"boom", none⟩ : Thrown).map JsError.status = some none ∧
    defaultRetryCondition (some ⟨"boom", none⟩) = true := ⟨rfl, rfl⟩

/-- C5 (amended): the default retry predicate returns `false` exactly for
object errors that carry a status code that is both below 500 and not
429; every other thrown value — including object errors with no status
code and non-object throws — is retryable. -/
theorem default_retry_condition_spec (t : Thrown) :
    defaultRetryCondition t = false ↔
      ∃ e s, t = some e ∧ e.status = some s ∧ s < 500 ∧ ¬s = 429 := by
  cases t with
  | none => simp [defaultRetryCondition]
  | some e =>
    obtain ⟨msg, st⟩ := e
    cases st with
    | none => simp [defaultRetryCondition]
    | some s =>
      simp only [defaultRetryCondition, Bool.or_eq_false_iff, decide_eq_false_iff_not,
        not_le, Option.some_inj]
      constructor
      · rintro ⟨hlt, hne⟩
        exact ⟨⟨msg, some s⟩, s, rfl, rfl, hlt, hne⟩
      · rintro ⟨e', s', heq, hst, hlt, hne⟩
        cases heq
        cases hst
        exact ⟨hlt, hne⟩

/-- C6: for an always-failing operation, `withErrorHandling` with a
supplied fallback and a one-attempt retry policy returns the fallback's
value and never raises; with no fallback it propagates the operation's
own last error unchanged (the very error value some attempt threw, not a
wrapper) — both with a retry policy of at least one attempt and with no
retry policy at all. -/
theorem with_error_handling_fallback {α : Type} (name : String) :
    (∀ (fn : Nat → Except Thrown α) (ro : RetryOpts) (v : α),
      (∀ i, ∃ t, fn i = Except.error t) → ro.maxAttempts = 1 →
      (ErrorHandler.withErrorHandling name fn (some ro) (some v) none).1 = Except.ok v) ∧
    (∀ (fn : Nat → Except Thrown α) (ro : RetryOpts),
      (∀ i, ∃ t, fn i = Except.error t) → 1 ≤ ro.maxAttempts →
      ∃ k t, fn k = Except.error t ∧
        (ErrorHandler.withErrorHandling name fn (some ro) none none).1 = Except.error t) ∧
    (∀ (fn : Nat → Except Thrown α),
      (∀ i, ∃ t, fn i = Except.error t) →
      ∃ t, fn 1 = Except.error t ∧
        (ErrorHandler.withErrorHandling name fn none none none).1 = Except.error t) := by
  refine ⟨?_, ?_, ?_⟩
  · intro fn ro v hfail hone
    obtain ⟨k, t, _, _, hres⟩ :=
      retryAux_fail_any fn ro hfail ro.maxAttempts 1 ro.initialDelay none (by omega)
    have hres' : (RetryHandler.retry fn ro).result = Except.error t := hres
    simp [ErrorHandler.withErrorHandling, hres']
  · intro fn ro hfail hone
    obtain ⟨k, t, _, hk, hres⟩ :=
      retryAux_fail_any fn ro hfail ro.maxAttempts 1 ro.initialDelay none (by omega)
    have hres' : (RetryHandler.retry fn ro).result = Except.error t := hres
    exact ⟨k, t, hk, by simp [ErrorHandler.withErrorHandling, hres']⟩
  · intro fn hfail
    obtain ⟨t, ht⟩ := hfail 1
    exact ⟨t, ht, by simp [ErrorHandler.withErrorHandling, ht]⟩

/-- A concrete run of `with_error_handling_fallback`: an operation that
always throws a 503 error, a one-attempt policy, and fallback value 42;
without a fallback the 503 error itself comes back. -/
theorem with_error_handling_fallback_witness :
    (ErrorHandler.withErrorHandling "svc"
        (fun _ => Except.error (some ⟨"fail", some 503⟩))
        (some ⟨1, 100, 1000, 2, defaultRetryCondition⟩) (some (42 : Nat)) none).1 =
      Except.ok 42 ∧
    ∃ t, (fun _ => Except.error (some ⟨"fail", some 503⟩) : Nat → Except Thrown Nat) 1
          = Except.error t ∧
      (ErrorHandler.withErrorHandling (α := Nat) "svc"
          (fun _ => Except.error (some ⟨"fail", some 503⟩))
          none none none).1 = Except.error t := by
  have h := with_error_handling_fallback (α := Nat) "svc"
  exact ⟨h.1 (fun _ => Except.error (some ⟨"fail", some 503⟩))
      ⟨1, 100, 1000, 2, defaultRetryCondition⟩ 42
      (fun _ => ⟨some ⟨"fail", some 503⟩, rfl⟩) rfl,
    h.2.2 (fun _ => Except.error (some ⟨"fail", some 503⟩))
      (fun _ => ⟨some ⟨"fail", some 503⟩, rfl⟩)⟩

lemma onFailure_below (opts : CBOptions) (b : Breaker) (now : Int)
    (h : ¬ opts.failureThreshold ≤ b.failures + 1) :
    CircuitBreaker.onFailure opts b now =
      (⟨b.state, b.failures + 1, now, 0⟩, []) := by
  simp [CircuitBreaker.onFailure, h]

lemma onFailure_opens (opts : CBOptions) (b : Breaker) (now : Int)
    (hthr : opts.failureThreshold ≤ b.failures + 1) (hst : ¬ b.state = CircuitState.OPEN) :
    CircuitBreaker.onFailure opts b now =
      (⟨CircuitState.OPEN, b.failures + 1, now, 0⟩, [Hook.opened (b.failures + 1)]) := by
  simp [CircuitBreaker.onFailure, hthr, hst]

lemma execute_closed_fail (opts : CBOptions) (b : Breaker) (t : Int)
    (h : b.state = CircuitState.CLOSED) :
    CircuitBreaker.execute opts b t false =
      ⟨(CircuitBreaker.onFailure opts b t).1, ExecResult.failed,
        (CircuitBreaker.onFailure opts b t).2⟩ := by
  simp [CircuitBreaker.execute, CircuitBreaker.runCall, h]

lemma execute_open_rejects (opts : CBOptions) (b : Breaker) (now : Int) (fnOk : Bool)
    (h : b.state = CircuitState.OPEN) (ht : now - b.lastFailureTime < opts.resetTimeout) :
    CircuitBreaker.execute opts b now fnOk = ⟨b, ExecResult.rejected, []⟩ := by
  have h2 : ¬ opts.resetTimeout ≤ now - b.lastFailureTime := not_le.mpr ht
  simp [CircuitBreaker.execute, h, h2]

lemma applyFails_stay_closed (opts : CBOptions) :
    ∀ (ts : List Int) (b : Breaker), b.state = CircuitState.CLOSED →
      b.failures + ts.length < opts.failureThreshold →
      (applyFails opts b ts).state = CircuitState.CLOSED ∧
      (applyFails opts b ts).failures = b.failures + ts.length := by
  intro ts
  induction ts with
  | nil => intro b hs _; exact ⟨by simpa [applyFails] using hs, by simp [applyFails]⟩
  | cons t ts ih =>
    intro b hs hlt
    have hbelow : ¬ opts.failureThreshold ≤ b.failures + 1 := by
      simp only [List.length_cons] at hlt
      omega
    have hstep : (CircuitBreaker.execute opts b t false).breaker =
        ⟨CircuitState.CLOSED, b.failures + 1, t, 0⟩ := by
      rw [execute_closed_fail opts b t hs, onFailure_below opts b t hbelow]
      simpa using hs ▸ rfl
    have hfold : applyFails opts b (t :: ts) =
        applyFails opts (⟨CircuitState.CLOSED, b.failures + 1, t, 0⟩ : Breaker) ts := by
      simp [applyFails, hstep]
    obtain ⟨ih1, ih2⟩ := ih ⟨CircuitState.CLOSED, b.failures + 1, t, 0⟩ rfl
      (by
        show b.failures + 1 + ts.length < opts.failureThreshold
        simp only [List.length_cons] at hlt
        omega)
    rw [hfold]
    refine ⟨ih1, ?_⟩
    rw [ih2]
    show b.failures + 1 + ts.length = b.failures + (t :: ts).length
    simp only [List.length_cons]
    omega

lemma applyFails_opens (opts : CBOptions) :
    ∀ (ts : List Int) (b : Breaker), b.state = CircuitState.CLOSED →
      0 < ts.length → b.failures + ts.length = opts.failureThreshold →
      (applyFails opts b ts).state = CircuitState.OPEN ∧
      (applyFails opts b ts).failures = opts.failureThreshold := by
  intro ts
  induction ts with
  | nil => intro b _ h0 _; exact absurd h0 (by simp)
  | cons t ts ih =>
    intro b hs _ hsum
    cases ts with
    | nil =>
      have hthr : opts.failureThreshold ≤ b.failures + 1 := by
        simp only [List.length_cons, List.length_nil] at hsum
        omega
      have hst : ¬ b.state = CircuitState.OPEN := by rw [hs]; simp
      have hstep : (CircuitBreaker.execute opts b t false).breaker =
          ⟨CircuitState.OPEN, b.failures + 1, t, 0⟩ := by
        rw [execute_closed_fail opts b t hs, onFailure_opens opts b t hthr hst]
      constructor
      · simp [applyFails, hstep]
      · simp [applyFails, hstep]
        omega
    | cons t' ts' =>
      have hbelow : ¬ opts.failureThreshold ≤ b.failures + 1 := by
        simp only [List.length_cons] at hsum
        omega
      have hstep : (CircuitBreaker.execute opts b t false).breaker =
          ⟨CircuitState.CLOSED, b.failures + 1, t, 0⟩ := by
        rw [execute_closed_fail opts b t hs, onFailure_below opts b t hbelow]
        simpa using hs ▸ rfl
      have hfold : applyFails opts b (t :: t' :: ts') =
          applyFails opts (⟨CircuitState.CLOSED, b.failures + 1, t, 0⟩ : Breaker)
            (t' :: ts') := by
        simp [applyFails, hstep]
      rw [hfold]
      exact ih ⟨CircuitState.CLOSED, b.failures + 1, t, 0⟩ rfl (by simp)
        (by simp only [List.length_cons] at hsum ⊢; omega)

/-- C1: after `failureThreshold` consecutive failures (at arbitrary call
instants) a fresh breaker is `OPEN`, and while less than `resetTimeout`
has elapsed since the last failure every further `execute` call throws
the circuit-open error without invoking the wrapped operation (the
outcome does not depend on `fnOk`) and leaves the breaker unchanged. -/
theorem circuit_opens_and_rejects (opts : CBOptions) (ts : List Int)
    (h1 : 1 ≤ opts.failureThreshold) (hlen : ts.length = opts.failureThreshold) :
    (applyFails opts CircuitBreaker.initial ts).state = CircuitState.OPEN ∧
    (applyFails opts CircuitBreaker.initial ts).failures = opts.failureThreshold ∧
    ∀ (t : Int) (fnOk : Bool),
      t - (applyFails opts CircuitBreaker.initial ts).lastFailureTime < opts.resetTimeout →
      CircuitBreaker.execute opts (applyFails opts CircuitBreaker.initial ts) t fnOk =
        ⟨applyFails opts CircuitBreaker.initial ts, ExecResult.rejected, []⟩ := by
  obtain ⟨hopen, hfail⟩ := applyFails_opens opts ts CircuitBreaker.initial rfl
    (by omega) (by simpa [CircuitBreaker.initial] using hlen)
  exact ⟨hopen, hfail, fun t fnOk ht =>
    execute_open_rejects opts _ t fnOk hopen ht⟩

/-- A concrete run of `circuit_opens_and_rejects` with the default
configuration: five failures at instant 0 open the breaker, and a call at
instant 59999 (1 ms before the reset timeout) is rejected unchanged. -/
theorem circuit_opens_and_rejects_witness :
    (applyFails defaultCBOptions CircuitBreaker.initial [0, 0, 0, 0, 0]).state =
      CircuitState.OPEN ∧
    CircuitBreaker.execute defaultCBOptions
        (applyFails defaultCBOptions CircuitBreaker.initial [0, 0, 0, 0, 0]) 59999 true =
      ⟨applyFails defaultCBOptions CircuitBreaker.initial [0, 0, 0, 0, 0],
        ExecResult.rejected, []⟩ := by
  obtain ⟨hopen, _, hrej⟩ := circuit_opens_and_rejects defaultCBOptions [0, 0, 0, 0, 0]
    (by decide) (by decide)
  exact ⟨hopen, hrej 59999 true (by decide)⟩

/-- The inductive invariant maintained by every reachable breaker (for a
positive failure threshold): the clock is nonnegative and at or after the
last recorded failure; a `CLOSED` breaker is below the threshold; an
`OPEN` or `HALF_OPEN` breaker has reached it; and a `HALF_OPEN` breaker's
last failure lies at least `resetTimeout` in the past. -/
def CBInv (opts : CBOptions) (b : Breaker) (now : Int) : Prop :=
  0 ≤ now ∧ b.lastFailureTime ≤ now ∧
  (b.state = CircuitState.CLOSED → b.failures < opts.failureThreshold) ∧
  (b.state = CircuitState.OPEN → opts.failureThreshold ≤ b.failures) ∧
  (b.state = CircuitState.HALF_OPEN →
    opts.failureThreshold ≤ b.failures ∧ opts.resetTimeout ≤ now - b.lastFailureTime)

lemma CBInv.tick {opts : CBOptions} {b : Breaker} {t t' : Int}
    (h : CBInv opts b t) (ht : t ≤ t') : CBInv opts b t' := by
  obtain ⟨h0, hl, hc, ho, hh⟩ := h
  exact ⟨by omega, by omega, hc, ho,
    fun hs => ⟨(hh hs).1, by have := (hh hs).2; omega⟩⟩

lemma CBInv.step (opts : CBOptions) (h1 : 1 ≤ opts.failureThreshold) {b : Breaker}
    {now : Int} (hinv : CBInv opts b now) (fnOk : Bool) :
    CBInv opts (CircuitBreaker.execute opts b now fnOk).breaker now := by
  obtain ⟨st, f, lt, sc⟩ := b
  obtain ⟨h0, hl, hc, ho, hh⟩ := hinv
  simp only [CBInv] at *
  cases st <;> cases fnOk <;>
    simp_all [CircuitBreaker.execute, CircuitBreaker.runCall, CircuitBreaker.onSuccess,
      CircuitBreaker.onFailure] <;>
    split_ifs <;> simp_all <;> omega

lemma execute_half_open_fail (opts : CBOptions) (b : Breaker) (now : Int)
    (h : b.state = CircuitState.HALF_OPEN) :
    CircuitBreaker.execute opts b now false =
      ⟨(CircuitBreaker.onFailure opts b now).1, ExecResult.failed,
        (CircuitBreaker.onFailure opts b now).2⟩ := by
  simp [CircuitBreaker.execute, CircuitBreaker.runCall, h]

lemma reachable_inv {opts : CBOptions} (h1 : 1 ≤ opts.failureThreshold)
    {b : Breaker} {now : Int} (h : Reachable opts b now) : CBInv opts b now := by
  induction h with
  | init => exact ⟨le_refl 0, le_refl 0, fun _ => h1, by simp [CircuitBreaker.initial],
      by simp [CircuitBreaker.initial]⟩
  | step hr ht fnOk ih => exact CBInv.step opts h1 (ih.tick ht) fnOk
  | tick hr ht ih => exact ih.tick ht
  | reset hr ih => exact ⟨ih.1, by simpa [CircuitBreaker.initial] using ih.1,
      fun _ => h1, by simp [CircuitBreaker.initial], by simp [CircuitBreaker.initial]⟩

lemma reachable_open_default (t : Int) (ht : 0 ≤ t) :
    Reachable defaultCBOptions ⟨CircuitState.OPEN, 5, 0, 0⟩ t := by
  have r0 : Reachable defaultCBOptions CircuitBreaker.initial 0 := Reachable.init
  have r1 : Reachable defaultCBOptions ⟨CircuitState.CLOSED, 1, 0, 0⟩ 0 :=
    Reachable.step r0 (le_refl 0) false
  have r2 : Reachable defaultCBOptions ⟨CircuitState.CLOSED, 2, 0, 0⟩ 0 :=
    Reachable.step r1 (le_refl 0) false
  have r3 : Reachable defaultCBOptions ⟨CircuitState.CLOSED, 3, 0, 0⟩ 0 :=
    Reachable.step r2 (le_refl 0) false
  have r4 : Reachable defaultCBOptions ⟨CircuitState.CLOSED, 4, 0, 0⟩ 0 :=
    Reachable.step r3 (le_refl 0) false
  have r5 : Reachable defaultCBOptions ⟨CircuitState.OPEN, 5, 0, 0⟩ 0 :=
    Reachable.step r4 (le_refl 0) false
  exact Reachable.tick r5 ht

lemma reachable_half_open_default :
    Reachable defaultCBOptions ⟨CircuitState.HALF_OPEN, 5, 0, 1⟩ 60000 :=
  Reachable.step (reachable_open_default 60000 (by norm_num)) (le_refl 60000) true

/-- C2: once `resetTimeout` has elapsed since the last failure, the next
`execute` call on an `OPEN` breaker fires `onHalfOpen` first and invokes
the operation; three consecutive successes on a freshly half-opened
breaker close it with the failure counter reset to 0, firing `onClose` on
the third call; and a single failure on a reachable `HALF_OPEN` breaker
reopens it, resetting `halfOpenSuccesses`, recording the new failure
instant, and firing `onOpen`. -/
theorem circuit_half_open_behavior (opts : CBOptions) :
    (∀ (b : Breaker) (now : Int) (fnOk : Bool),
      b.state = CircuitState.OPEN → opts.resetTimeout ≤ now - b.lastFailureTime →
      (CircuitBreaker.execute opts b now fnOk).hooks.head? = some Hook.halfOpened ∧
      (CircuitBreaker.execute opts b now fnOk).result =
        (if fnOk then ExecResult.ok else ExecResult.failed)) ∧
    (∀ (b : Breaker) (t1 t2 t3 : Int),
      b.state = CircuitState.HALF_OPEN → b.successCount = 0 →
      (CircuitBreaker.execute opts
          (CircuitBreaker.execute opts
            (CircuitBreaker.execute opts b t1 true).breaker t2 true).breaker
          t3 true).breaker.state = CircuitState.CLOSED ∧
      (CircuitBreaker.execute opts
          (CircuitBreaker.execute opts
            (CircuitBreaker.execute opts b t1 true).breaker t2 true).breaker
          t3 true).breaker.failures = 0 ∧
      (CircuitBreaker.execute opts
          (CircuitBreaker.execute opts
            (CircuitBreaker.execute opts b t1 true).breaker t2 true).breaker
          t3 true).hooks = [Hook.closed]) ∧
    (∀ (b : Breaker) (now : Int),
      1 ≤ opts.failureThreshold → Reachable opts b now →
      b.state = CircuitState.HALF_OPEN →
      (CircuitBreaker.execute opts b now false).breaker.state = CircuitState.OPEN ∧
      (CircuitBreaker.execute opts b now false).breaker.successCount = 0 ∧
      (CircuitBreaker.execute opts b now false).breaker.lastFailureTime = now ∧
      (CircuitBreaker.execute opts b now false).hooks = [Hook.opened (b.failures + 1)]) := by
  refine ⟨?_, ?_, ?_⟩
  · intro b now fnOk hst htime
    cases fnOk <;>
      simp [CircuitBreaker.execute, hst, htime, CircuitBreaker.runCall]
  · intro b t1 t2 t3 hst hsc
    obtain ⟨st, f, lt, sc⟩ := b
    simp only at hst hsc
    subst hst
    subst hsc
    simp [CircuitBreaker.execute, CircuitBreaker.runCall, CircuitBreaker.onSuccess]
  · intro b now hth hreach hst
    have hinv := reachable_inv hth hreach
    have hf : opts.failureThreshold ≤ b.failures := (hinv.2.2.2.2 hst).1
    have hof := onFailure_opens opts b now (by omega) (by rw [hst]; simp)
    rw [execute_half_open_fail opts b now hst, hof]
    simp

/-- A concrete run of `circuit_half_open_behavior` with the default
configuration: the breaker opened by five failures at instant 0 lets the
call at instant 60000 probe through as `HALF_OPEN`; three successes from
a fresh `HALF_OPEN` state close it; and one failure at instant 60001 on
the reachable half-open breaker reopens it. -/
theorem circuit_half_open_behavior_witness :
    ((CircuitBreaker.execute defaultCBOptions ⟨CircuitState.OPEN, 5, 0, 0⟩ 60000
        true).hooks.head? = some Hook.halfOpened ∧
      (CircuitBreaker.execute defaultCBOptions ⟨CircuitState.OPEN, 5, 0, 0⟩ 60000
        true).result = (if true then ExecResult.ok else ExecResult.failed)) ∧
    ((CircuitBreaker.execute defaultCBOptions
        (CircuitBreaker.execute defaultCBOptions
          (CircuitBreaker.execute defaultCBOptions
            (⟨CircuitState.HALF_OPEN, 5, 0, 0⟩ : Breaker) 60000 true).breaker
          60001 true).breaker 60002 true).breaker.state = CircuitState.CLOSED ∧
      (CircuitBreaker.execute defaultCBOptions
        (CircuitBreaker.execute defaultCBOptions
          (CircuitBreaker.execute defaultCBOptions
            (⟨CircuitState.HALF_OPEN, 5, 0, 0⟩ : Breaker) 60000 true).breaker
          60001 true).breaker 60002 true).breaker.failures = 0) ∧
    ((CircuitBreaker.execute defaultCBOptions ⟨CircuitState.HALF_OPEN, 5, 0, 1⟩ 60000
        false).breaker.state = CircuitState.OPEN ∧
      (CircuitBreaker.execute defaultCBOptions ⟨CircuitState.HALF_OPEN, 5, 0, 1⟩ 60000
        false).breaker.lastFailureTime = 60000 ∧
      (CircuitBreaker.execute defaultCBOptions ⟨CircuitState.HALF_OPEN, 5, 0, 1⟩ 60000
        false).hooks = [Hook.opened 6]) := by
  obtain ⟨ha, hb, hc⟩ := circuit_half_open_behavior defaultCBOptions
  have h3 := hc ⟨CircuitState.HALF_OPEN, 5, 0, 1⟩ 60000 (by decide)
    reachable_half_open_default rfl
  have h2 := hb ⟨CircuitState.HALF_OPEN, 5, 0, 0⟩ 60000 60001 60002 rfl rfl
  have h1 := ha ⟨CircuitState.OPEN, 5, 0, 0⟩ 60000 true rfl (by decide)
  exact ⟨h1, ⟨h2.1, h2.2.1⟩, h3.1, h3.2.2.1, h3.2.2.2⟩

/-- C7 counterexample: the spec's iff-invariant fails on a reachable
state.  With the default configuration, five failures at instant 0 leave
the breaker `OPEN`; at instant 60000 the full `resetTimeout` has elapsed,
so the right-hand side of the claimed equivalence is false while the
stored phase is still `OPEN` (the transition to `HALF_OPEN` only happens
on the next call). -/
theorem circuit_open_invariant_cex :
    Reachable defaultCBOptions ⟨CircuitState.OPEN, 5, 0, 0⟩ 60000 ∧
    ¬ specOpenInvariant defaultCBOptions ⟨CircuitState.OPEN, 5, 0, 0⟩ 60000 := by
  refine ⟨reachable_open_default 60000 (by norm_num), ?_⟩
  simp only [specOpenInvariant]
  decide

/-- C7 (amended): for every reachable breaker under a positive failure
threshold, `OPEN` implies the failure counter has reached the threshold;
and conversely, a counter at or above the threshold with less than
`resetTimeout` elapsed since the last failure forces the phase to be
`OPEN`.  The elapsed-time bound in the forward direction of the spec's
iff does not hold: the stored phase remains `OPEN` after `resetTimeout`
elapses until the next call performs the `HALF_OPEN` transition. -/
theorem circuit_open_invariant (opts : CBOptions) (b : Breaker) (now : Int)
    (h1 : 1 ≤ opts.failureThreshold) (hr : Reachable opts b now) :
    (b.state = CircuitState.OPEN → opts.failureThreshold ≤ b.failures) ∧
    (opts.failureThreshold ≤ b.failures ∧ now - b.lastFailureTime < opts.resetTimeout →
      b.state = CircuitState.OPEN) := by
  obtain ⟨h0, hl, hc, ho, hh⟩ := reachable_inv h1 hr
  refine ⟨ho, ?_⟩
  rintro ⟨hf, ht⟩
  cases hst : b.state with
  | CLOSED => exact absurd hf (by have := hc hst; omega)
  | OPEN => rfl
  | HALF_OPEN => exact absurd ht (not_lt.mpr (hh hst).2)

/-- A concrete run of `circuit_open_invariant`: the breaker opened by
five failures at instant 0, observed at instant 100 (inside the reset
window), satisfies both directions of the amended invariant. -/
theorem circuit_open_invariant_witness :
    ((⟨CircuitState.OPEN, 5, 0, 0⟩ : Breaker).state = CircuitState.OPEN →
      defaultCBOptions.failureThreshold ≤
        (⟨CircuitState.OPEN, 5, 0, 0⟩ : Breaker).failures) ∧
    (defaultCBOptions.failureThreshold ≤
        (⟨CircuitState.OPEN, 5, 0, 0⟩ : Breaker).failures ∧
        (100 : Int) - (⟨CircuitState.OPEN, 5, 0, 0⟩ : Breaker).lastFailureTime <
          defaultCBOptions.resetTimeout →
      (⟨CircuitState.OPEN, 5, 0, 0⟩ : Breaker).state = CircuitState.OPEN) :=
  circuit_open_invariant defaultCBOptions ⟨CircuitState.OPEN, 5, 0, 0⟩ 100
    (by decide) (reachable_open_default 100 (by norm_num))

lemma pushBounded_length_le (buf : List α) (n : α) (h : buf.length ≤ 1000) :
    (ErrorLogger.pushBounded buf n).length ≤ 1000 := by
  simp only [ErrorLogger.pushBounded]
  split_ifs with h1
  · simp only [List.length_tail, List.length_append, List.length_cons, List.length_nil]
    omega
  · simp only [List.length_append, List.length_cons, List.length_nil] at h1 ⊢
    omega

lemma pushBounded_eq (buf : List α) (n : α) :
    ErrorLogger.pushBounded buf n =
      if 1000 < buf.length + 1 then (buf ++ [n]).tail else buf ++ [n] := by
  simp [ErrorLogger.pushBounded]

lemma foldl_pushBounded (evs : List α) :
    List.foldl ErrorLogger.pushBounded [] evs = evs.drop (evs.length - 1000) := by
  induction evs using List.reverseRecOn with
  | nil => simp
  | append_singleton evs a ih =>
    rw [List.foldl_append, List.foldl_cons, List.foldl_nil, ih, pushBounded_eq]
    rcases lt_or_ge evs.length 1000 with hlen | hlen
    · rw [if_neg (by simp only [List.length_drop]; omega)]
      have hk : evs.length - 1000 = 0 := by omega
      have hk2 : (evs ++ [a]).length - 1000 = 0 := by
        simp only [List.length_append, List.length_cons, List.length_nil]
        omega
      rw [hk, hk2, List.drop_zero, List.drop_zero]
    · rw [if_pos (by simp only [List.length_drop]; omega)]
      have hk2 : (evs ++ [a]).length - 1000 = evs.length - 1000 + 1 := by
        simp only [List.length_append, List.length_cons, List.length_nil]
        omega
      rw [← List.drop_one,
        List.drop_append_of_le_length (by simp only [List.length_drop]; omega),
        List.drop_drop, hk2,
        List.drop_append_of_le_length (by omega)]

lemma logAll_notifications {α ε : Type} :
    ∀ (evs : List α) (st : LoggerState α ε),
      (ErrorLogger.logAll st evs).notifications =
        List.foldl ErrorLogger.pushBounded st.notifications evs := by
  intro evs
  induction evs with
  | nil => intro st; simp [ErrorLogger.logAll]
  | cons e evs ih =>
    intro st
    have hstep : ErrorLogger.logAll st (e :: evs) =
        ErrorLogger.logAll ⟨ErrorLogger.pushBounded st.notifications e, st.listeners⟩ evs :=
      rfl
    rw [hstep, ih]
    rfl

/-- C8: a `log` call on a buffer holding at most 1000 notifications
leaves at most 1000 notifications; and logging 1001 events into an empty
reporter leaves exactly the most recent 1000 events, in logging order,
with the first-logged event evicted (absent whenever the events are
pairwise distinct). -/
theorem error_logger_bounded {α ε : Type} :
    (∀ (st : LoggerState α ε) (n : α), st.notifications.length ≤ 1000 →
      ((ErrorLogger.log st n).1).notifications.length ≤ 1000) ∧
    (∀ (ls : List (α → Option ε)) (evs : List α), evs.length = 1001 →
      (ErrorLogger.logAll ⟨[], ls⟩ evs).notifications = evs.drop 1 ∧
      (evs.Nodup → ∀ h0, evs.head? = some h0 →
        h0 ∉ (ErrorLogger.logAll ⟨[], ls⟩ evs).notifications)) := by
  constructor
  · intro st n h
    exact pushBounded_length_le st.notifications n h
  · intro ls evs hlen
    have hbuf : (ErrorLogger.logAll (⟨[], ls⟩ : LoggerState α ε) evs).notifications =
        evs.drop 1 := by
      rw [logAll_notifications evs ⟨[], ls⟩]
      have := foldl_pushBounded evs
      rw [hlen] at this
      simpa using this
    refine ⟨hbuf, ?_⟩
    intro hnd h0 hhead
    rw [hbuf]
    cases evs with
    | nil => simp at hhead
    | cons a t =>
      simp only [List.head?_cons, Option.some_inj] at hhead
      subst hhead
      simp only [List.drop_succ_cons, List.drop_zero]
      exact (List.nodup_cons.mp hnd).1

/-- A concrete run of `error_logger_bounded`: logging the 1001 distinct
events `0, 1, ..., 1000` into an empty reporter with no listeners leaves
the buffer `1, ..., 1000` and the first event `0` is gone; and one
further `log` keeps the buffer at 1000 entries. -/
theorem error_logger_bounded_witness :
    (ErrorLogger.logAll (⟨[], []⟩ : LoggerState Nat Unit)
        (0 :: (List.range 1000).map (· + 1))).notifications =
      (0 :: (List.range 1000).map (· + 1)).drop 1 ∧
    (0 : Nat) ∉ (ErrorLogger.logAll (⟨[], []⟩ : LoggerState Nat Unit)
        (0 :: (List.range 1000).map (· + 1))).notifications := by
  have hlen : (0 :: (List.range 1000).map (· + 1)).length = 1001 := by
    simp
  have hnd : (0 :: (List.range 1000).map (· + 1)).Nodup := by
    refine List.nodup_cons.mpr ⟨?_, ?_⟩
    · simp
    · exact (List.nodup_range 1000).map (add_left_injective 1)
  have h := (error_logger_bounded (α := Nat) (ε := Unit)).2 []
    (0 :: (List.range 1000).map (· + 1)) hlen
  exact ⟨h.1, h.2 hnd 0 rfl⟩

lemma notifyList_append_throw {α ε : Type} (n : α) (e : ε) :
    ∀ (pre : List (α → Option ε)) (thrower : α → Option ε) (post : List (α → Option ε)),
      (∀ l ∈ pre, l n = none) → thrower n = some e →
      notifyList (pre ++ thrower :: post) n = (pre.length + 1, some e) := by
  intro pre
  induction pre with
  | nil => intro th post _ hth; simp [notifyList, hth]
  | cons l ls ih =>
    intro th post hpre hth
    have hl : l n = none := hpre l (by simp)
    have hrest := ih th post (fun x hx => hpre x (by simp [hx])) hth
    simp [notifyList, hl, hrest]

lemma mem_pushBounded (buf : List α) (n : α) : n ∈ ErrorLogger.pushBounded buf n := by
  simp only [ErrorLogger.pushBounded]
  split_ifs with h
  · cases buf with
    | nil => simp at h
    | cons b bs => simp
  · simp

/-- C10: `log` stores the event in the buffer before notifying any
subscriber.  If the listener list is `pre ++ thrower :: post` where every
listener in `pre` returns normally and `thrower` throws `e`, then the
exception `e` propagates to the caller of `log`, exactly the first
`pre.length + 1` listeners are invoked (none of `post` runs), and the
returned state's buffer is the fully updated buffer, still containing the
event. -/
theorem log_stores_before_notifying {α ε : Type} (st : LoggerState α ε) (n : α)
    (pre post : List (α → Option ε)) (thrower : α → Option ε) (e : ε)
    (hls : st.listeners = pre ++ thrower :: post)
    (hpre : ∀ l ∈ pre, l n = none) (hthrow : thrower n = some e) :
    (ErrorLogger.log st n).2.2 = some e ∧
    (ErrorLogger.log st n).2.1 = pre.length + 1 ∧
    ((ErrorLogger.log st n).1).notifications = ErrorLogger.pushBounded st.notifications n ∧
    n ∈ ((ErrorLogger.log st n).1).notifications := by
  have hcall := notifyList_append_throw n e pre thrower post hpre hthrow
  refine ⟨?_, ?_, rfl, mem_pushBounded st.notifications n⟩
  · simp [ErrorLogger.log, hls, hcall]
  · simp [ErrorLogger.log, hls, hcall]

/-- A concrete run of `log_stores_before_notifying`: a reporter whose
only listener always throws `7`; logging the event `5` propagates `7`,
invokes exactly that one listener, and stores `5` in the buffer anyway. -/
theorem log_stores_before_notifying_witness :
    (ErrorLogger.log (⟨[], [fun _ => some 7]⟩ : LoggerState Nat Nat) 5).2.2 = some 7 ∧
    (ErrorLogger.log (⟨[], [fun _ => some 7]⟩ : LoggerState Nat Nat) 5).2.1 = 1 ∧
    (5 : Nat) ∈ ((ErrorLogger.log (⟨[], [fun _ => some 7]⟩ : LoggerState Nat Nat) 5).1).notifications := by
  have h := log_stores_before_notifying (⟨[], [fun _ => some 7]⟩ : LoggerState Nat Nat) 5
    [] [] (fun _ => some 7) 7 rfl (by simp) rfl
  exact ⟨h.1, h.2.1, h.2.2.2⟩

/-- C9: `withCircuitBreaker` recognizes an open circuit purely by the
error message string.  If the breaker is `CLOSED` and the operation
itself throws an object error whose `message` equals
`"Circuit breaker is OPEN"`, then with a registered fallback the call
logs a warning and returns the fallback's value — even though the
breaker never rejected anything (it records the failure via
`onFailure`, showing the operation really ran). -/
theorem with_circuit_breaker_message_match {α : Type} (opts : CBOptions) (name : String)
    (b : Breaker) (now : Int) (e : JsError) (v : α)
    (hclosed : b.state = CircuitState.CLOSED)
    (hmsg : e.message = "Circuit breaker is OPEN") :
    ErrorHandler.withCircuitBreaker opts name b now (Except.error (some e)) (some v) =
      ((CircuitBreaker.onFailure opts b now).1, Except.ok v,
        [⟨LogLevel.warning, "Circuit breaker " ++ name ++ " is open, using fallback"⟩]) := by
  simp [ErrorHandler.withCircuitBreaker, execute_closed_fail opts b now hclosed,
    ErrorHandler.cbCatch, hmsg]

/-- A concrete run of `with_circuit_breaker_message_match`: a fresh
(`CLOSED`) breaker, an operation throwing an error whose message spoofs
the breaker's own, and fallback value 9. -/
theorem with_circuit_breaker_message_match_witness :
    ErrorHandler.withCircuitBreaker defaultCBOptions "music-api" CircuitBreaker.initial 5
        (Except.error (some ⟨"Circuit breaker is OPEN", none⟩)) (some (9 : Nat)) =
      ((CircuitBreaker.onFailure defaultCBOptions CircuitBreaker.initial 5).1, Except.ok 9,
        [⟨LogLevel.warning, "Circuit breaker " ++ "music-api" ++ " is open, using fallback"⟩]) :=
  with_circuit_breaker_message_match defaultCBOptions "music-api" CircuitBreaker.initial 5
    ⟨"Circuit breaker is OPEN", none⟩ 9 rfl rfl
